import Mathlib

/-!
# The decoder orchestrator `God` (src/common/god.cpp)

A shallow embedding of the orchestrator of the decoder: the loader registries
filled by `God::LoadScorers`, the static thread partition of `God::GetScorers`
and `God::GetBestHyps`, the enumeration `God::GetScorerNames`, the filter
set-up of `God::LoadFiltering`, the preprocessing chains of `God::Preprocess`
and the lazily created search sessions of `God::GetSearch`.

Conventions.
* `size_t` values are natural numbers below `SIZE_MOD = 2^64`; every `size_t`
  operation that can wrap is written with an explicit `% SIZE_MOD`.
* A read through an invalid iterator or index is undefined behaviour in the
  source; the embedding returns `none` there.
* An exception that leaves a function is the `Except.error` result.
-/

namespace Amun

/-! ## Machine integers -/

/-- Number of values of a `size_t` (64-bit unsigned). -/
def SIZE_MOD : Nat := 2 ^ 64

/-- Largest value of the C++ type `int` (32-bit signed). -/
def INT_MAX : Nat := 2147483647

/-- Wrapping `size_t` addition. -/
def sizeAdd (a b : Nat) : Nat := (a + b) % SIZE_MOD

/-- Wrapping `size_t` subtraction. -/
def sizeSub (a b : Nat) : Nat := (a + SIZE_MOD - b % SIZE_MOD) % SIZE_MOD

/-- Conversion of an `int` to `size_t` (value modulo `2^64`). -/
def intToSize (v : Int) : Nat := (v % (SIZE_MOD : Int)).toNat

/-! ## Device classes, loaders, scorers -/

/-- The enumeration `DeviceType` handed to `Search` and to the loader factory. -/
inductive DeviceType where
  | CPUDevice
  | GPUDevice
  deriving DecidableEq, Repr

/-- A loader as produced by `LoaderFactory::Create(god, name, config, mode)`:
the record of the arguments it was created from.  The factory itself lives in
loader_factory.h; only the identity of its product matters here. -/
structure Loader where
  name : String
  config : String
  mode : DeviceType
  deriving DecidableEq, Repr

/-- A scorer as produced by `loader->NewScorer(god, index)`. -/
structure Scorer where
  loader : Loader
  index : Nat
  deriving DecidableEq, Repr

/-- The strategy object handed out by `loader->GetBestHyps(god)`; it is owned
by (and identified with) its loader. -/
structure BestHypsBase where
  owner : Loader
  deriving DecidableEq, Repr

/-- Model of `Loader::NewScorer`. -/
def Loader.NewScorer (l : Loader) (index : Nat) : Scorer := ⟨l, index⟩

/-- Model of `Loader::GetBestHyps`. -/
def Loader.GetBestHyps (l : Loader) : BestHypsBase := ⟨l⟩

/-! ## `std::map<std::string, LoaderPtr>`

`cpuLoaders_` and `gpuLoaders_` are used in god.cpp through
`emplace(name, loader)`, `begin()->second` and the boost range adaptors
`map_keys` / `map_values`: the interface of `std::map` keyed by the scorer
name.  A `std::map` iterates in ascending key order (`std::less<std::string>`,
the lexicographic comparison of the characters) and `emplace` leaves the map
untouched when an equivalent key is already present.  The map is embedded as
the list of its entries in iteration order. -/

/-- The sequence of character codes `std::string::compare` works on. -/
def nameKey (s : String) : List Nat := s.toList.map Char.toNat

/-- Model of `operator<` on `std::string`. -/
def nameLess (a b : String) : Prop := nameKey a < nameKey b

instance (a b : String) : Decidable (nameLess a b) := by
  unfold nameLess; infer_instance

/-- The entries of a `std::map<std::string, V>` in iteration order. -/
abbrev StdMap (V : Type) := List (String × V)

/-- Model of `std::map::emplace(k, v)`: insertion at the position the key
order dictates, no change when the key is present. -/
def StdMap.emplace {V : Type} : StdMap V → String → V → StdMap V
  | [], k, v => [(k, v)]
  | (k', v') :: rest, k, v =>
    if nameLess k k' then (k, v) :: (k', v') :: rest
    else if nameLess k' k then (k', v') :: StdMap.emplace rest k v
    else (k', v') :: rest

/-- Model of the range `m | boost::adaptors::map_keys`. -/
def StdMap.map_keys {V : Type} (m : StdMap V) : List String := m.map Prod.fst

/-- Model of the range `m | boost::adaptors::map_values`. -/
def StdMap.map_values {V : Type} (m : StdMap V) : List V := m.map Prod.snd

/-- Model of `m.begin()->second`; dereferencing `end()` of an empty map is
undefined, embedded as `none`. -/
def StdMap.beginSecond {V : Type} (m : StdMap V) : Option V := m.head?.map Prod.snd

/-! ## Configuration -/

/-- The value of the `bpe` option. -/
inductive BpeOption where
  | absent
  | scalar (path : String)
  | sequence (paths : List String)
  deriving DecidableEq, Repr

/-- The options god.cpp reads, with the compile-time switch `CUDA`. -/
structure Config where
  CUDA : Bool
  cpuThreads : Nat
  gpuThreads : Nat
  devices : List Nat
  scorers : List (String × String)
  softmaxFilter : List String
  bpe : BpeOption
  noDebpe : Bool

/-! ## Filter -/

/-- The call of the `Filter` constructor made by `LoadFiltering`: source vocab
index, alignment file and the optional trailing arguments (`none` when the
argument is not passed and the constructor default applies). -/
structure Filter where
  sourceVocab : Nat
  alignmentFile : String
  numNFirst : Option Nat
  maxNumTranslation : Option Nat
  deriving DecidableEq, Repr

deriving instance DecidableEq for Except

/-- The exceptions of `std::stoi`. -/
inductive StoiError where
  | invalid_argument
  | out_of_range
  deriving DecidableEq, Repr

/-- Model of `isspace` in the C locale. -/
def isspace (c : Char) : Bool :=
  c.toNat = 32 || (9 ≤ c.toNat && c.toNat ≤ 13)

/-- Model of `isdigit`. -/
def isdigit (c : Char) : Bool := 48 ≤ c.toNat && c.toNat ≤ 57

/-- Value of a decimal digit character. -/
def digitVal (c : Char) : Nat := c.toNat - 48

/-- The digit loop of `strtol`: accumulates the longest run of leading digits. -/
def readDigits : List Char → Nat → Nat
  | [], acc => acc
  | c :: cs, acc => if isdigit c then readDigits cs (10 * acc + digitVal c) else acc

/-- The part of `strtol` after the white space: optional sign, then digits.
No digit means no conversion (`invalid_argument`); a value outside `int`
means `out_of_range`. -/
def stoiSigned : List Char → Except StoiError Int
  | [] => .error .invalid_argument
  | c :: cs =>
    if c = '-' then
      match cs with
      | [] => .error .invalid_argument
      | d :: _ =>
        if isdigit d then
          if readDigits cs 0 ≤ INT_MAX + 1 then .ok (-(readDigits cs 0 : Int))
          else .error .out_of_range
        else .error .invalid_argument
    else if c = '+' then
      match cs with
      | [] => .error .invalid_argument
      | d :: _ =>
        if isdigit d then
          if readDigits cs 0 ≤ INT_MAX then .ok (readDigits cs 0 : Int)
          else .error .out_of_range
        else .error .invalid_argument
    else if isdigit c then
      if readDigits (c :: cs) 0 ≤ INT_MAX then .ok (readDigits (c :: cs) 0 : Int)
      else .error .out_of_range
    else .error .invalid_argument

/-- Model of `std::stoi(str)` (base 10): leading white space is skipped, an
optional sign and the longest run of digits are converted, what follows the
digits is ignored. -/
def stoi (s : String) : Except StoiError Int :=
  stoiSigned (s.toList.dropWhile isspace)

/-- No conversion can be performed by `std::stoi`: after the leading white
space and one optional sign the text does not continue with a digit. -/
def noConversion (s : String) : Bool :=
  match s.toList.dropWhile isspace with
  | [] => true
  | c :: cs =>
    if c = '-' ∨ c = '+' then
      match cs with
      | [] => true
      | d :: _ => !isdigit d
    else !isdigit c

/-- The sign and the text after it: what `std::stoi` converts once the leading
white space and one optional sign are consumed (`true` for a minus sign). -/
def signedBody (s : String) : Bool × List Char :=
  match s.toList.dropWhile isspace with
  | [] => (false, [])
  | c :: cs => if c = '-' then (true, cs) else if c = '+' then (false, cs) else (false, c :: cs)

/-- The magnitude of the leading integer of a text: the positional value (base
10) of the digits that follow the white space and the sign. -/
def leadingMagnitude (s : String) : Nat :=
  Nat.ofDigits 10 (((signedBody s).2.takeWhile isdigit).map digitVal).reverse

/-- The leading integer of the text lies outside the range of `int`
(`-2147483648 .. 2147483647`). -/
def outsideInt (s : String) : Bool :=
  if (signedBody s).1 then decide (INT_MAX + 1 < leadingMagnitude s)
  else decide (INT_MAX < leadingMagnitude s)

/-- The texts on which `std::stoi` throws: no conversion can be performed, or
the leading integer does not fit an `int`. -/
def stoiThrows (s : String) : Bool := noConversion s || outsideInt s

/-- A `Preprocessor` object: its `Preprocess` method. -/
structure Preprocessor where
  Preprocess : List String → List String

/-- A `Search` object as constructed by `new Search(god, deviceType, taskCounter)`. -/
structure Search where
  deviceType : DeviceType
  taskCounter : Nat
  deriving DecidableEq, Repr

/-! ## The orchestrator state -/

/-- Modelled from the spec: the declaration of `search_` (god.h, which is not
among the sources).  The spec has the orchestrator construct "one search
context per worker"; god.cpp reads and writes the slot as `search_.get()` and
`search_.reset(obj)`, without any key.  The slot a call sees is therefore
determined by the calling thread alone: one pointer per thread, `none` for
`NULL`.  A single shared pointer is the case of a single calling thread. -/
abbrev ThreadSlots := Nat → Option Nat

/-- The members of `God` that the modelled methods read or write.  Pointers to
`Search` objects are positions in `heap`, the sequence of all `Search` objects
constructed so far; `numGPUThreads_` is a `size_t`. -/
structure God where
  config_ : Config
  cpuLoaders_ : StdMap Loader
  gpuLoaders_ : StdMap Loader
  filter_ : Option Filter
  preprocessors_ : List (List Preprocessor)
  numGPUThreads_ : Nat
  search_ : ThreadSlots
  heap : List Search

namespace God

/-- Model of the constructor `God::God()` followed by the option parsing of
`Init`: `numGPUThreads_` is 0 and every container is empty. -/
def construct (config : Config) : God :=
  { config_ := config
    cpuLoaders_ := []
    gpuLoaders_ := []
    filter_ := none
    preprocessors_ := []
    numGPUThreads_ := 0
    search_ := fun _ => none
    heap := [] }

/-- The loop `for (pair : scorers) loaders.emplace(name, Create(name, pair.second, mode))`. -/
def registerAll (mode : DeviceType) (scorers : List (String × String))
    (m : StdMap Loader) : StdMap Loader :=
  scorers.foldl (fun acc p => StdMap.emplace acc p.1 ⟨p.1, p.2, mode⟩) m

/-- Model of `God::LoadScorers`. -/
def LoadScorers (g : God) : God :=
  let gpu :=
    if g.config_.CUDA ∧ g.config_.gpuThreads > 0 ∧ g.config_.devices.length > 0 then
      registerAll .GPUDevice g.config_.scorers g.gpuLoaders_
    else g.gpuLoaders_
  let cpu :=
    if g.config_.cpuThreads ≠ 0 then
      registerAll .CPUDevice g.config_.scorers g.cpuLoaders_
    else g.cpuLoaders_
  { g with gpuLoaders_ := gpu, cpuLoaders_ := cpu }

/-- Model of `God::GetScorers`. -/
def GetScorers (g : God) (threadId : Nat) : List Scorer :=
  let cpuThreads := g.config_.cpuThreads
  if threadId < cpuThreads then
    g.cpuLoaders_.map_values.map (fun loader => loader.NewScorer threadId)
  else
    g.gpuLoaders_.map_values.map (fun loader => loader.NewScorer (sizeSub threadId cpuThreads))

/-- Model of `God::GetBestHyps`. -/
def GetBestHyps (g : God) (threadId : Nat) : Option BestHypsBase :=
  let cpuThreads := g.config_.cpuThreads
  if threadId < cpuThreads then
    g.cpuLoaders_.beginSecond.map Loader.GetBestHyps
  else
    g.gpuLoaders_.beginSecond.map Loader.GetBestHyps

/-- Model of `God::GetScorerNames`. -/
def GetScorerNames (g : God) : List String :=
  g.cpuLoaders_.map_keys ++ g.gpuLoaders_.map_keys

/-- Model of `God::LoadFiltering`.  The `Filter` is constructed on source vocab
0 from `filterOptions[0]`; `stoi` may throw, in which case `filter_` is never
assigned.  The `int` returned by `stoi` initialises a `const size_t`. -/
def LoadFiltering (g : God) : Except StoiError God :=
  match g.config_.softmaxFilter with
  | [] => .ok g
  | alignmentFile :: rest =>
    if 3 ≤ (alignmentFile :: rest).length then
      match stoi (rest.getD 0 "") with
      | .error e => .error e
      | .ok n1 =>
        match stoi (rest.getD 1 "") with
        | .error e => .error e
        | .ok n2 =>
          .ok { g with
            filter_ := some ⟨0, alignmentFile, some (intToSize n1), some (intToSize n2)⟩ }
    else if (alignmentFile :: rest).length = 2 then
      match stoi (rest.getD 0 "") with
      | .error e => .error e
      | .ok n1 => .ok { g with filter_ := some ⟨0, alignmentFile, some (intToSize n1), none⟩ }
    else
      .ok { g with filter_ := some ⟨0, alignmentFile, none, none⟩ }

/-- Model of `preprocessors_[i].emplace_back(p)`; the index is in range at
both uses, right after a `push_back`. -/
def emplaceBackAt (pre : List (List Preprocessor)) (i : Nat) (p : Preprocessor) :
    List (List Preprocessor) :=
  pre.set i (pre.getD i [] ++ [p])

/-- The loop over a `bpe` sequence: `push_back` of an empty chain, then
`preprocessors_[i++].emplace_back(new BPE(bpePath))`. -/
def loadBpeSequence (BPE : String → Preprocessor) :
    List String → Nat → List (List Preprocessor) → List (List Preprocessor)
  | [], _, pre => pre
  | bpePath :: paths, i, pre =>
    loadBpeSequence BPE paths (i + 1) (emplaceBackAt (pre ++ [[]]) i (BPE bpePath))

/-- Model of the first part of `God::LoadPrePostProcessing`, which fills
`preprocessors_`; `BPE` is the constructor `new BPE(path)` of the subword
processor.  (The second part appends the De-BPE postprocessor to
`postprocessors_`, a member no modelled method reads.) -/
def LoadPrePostProcessing (BPE : String → Preprocessor) (g : God) : God :=
  let pre :=
    match g.config_.bpe with
    | .absent => g.preprocessors_
    | .sequence paths => loadBpeSequence BPE paths 0 g.preprocessors_
    | .scalar path =>
      if path ≠ "" then emplaceBackAt (g.preprocessors_ ++ [[]]) 0 (BPE path)
      else g.preprocessors_ ++ [[]]
  { g with preprocessors_ := pre }

/-- Model of `God::Preprocess(i, input)`.  The guard is
`preprocessors_.size() >= i + 1` with `i + 1` computed in `size_t`; when it
holds `preprocessors_[i]` is read, which is undefined (`none`) for an index
that is not below the size. -/
def Preprocess (g : God) (i : Nat) (input : List String) : Option (List String) :=
  if g.preprocessors_.length ≥ sizeAdd i 1 then
    match g.preprocessors_.get? i with
    | none => none
    | some chain => some (chain.foldl (fun processed processor => processor.Preprocess processed) input)
  else some input

/-- Model of `God::GetSearch(taskCounter)` called on thread `thread`: the
pointer returned and the state afterwards. -/
def GetSearch (g : God) (thread : Nat) (taskCounter : Nat) : Nat × God :=
  match g.search_ thread with
  | some obj => (obj, g)
  | none =>
    let maxGPUThreads := g.config_.gpuThreads
    let deviceType :=
      if g.numGPUThreads_ < maxGPUThreads then DeviceType.GPUDevice else DeviceType.CPUDevice
    let obj := g.heap.length
    (obj,
      { g with
        numGPUThreads_ := sizeAdd g.numGPUThreads_ 1
        heap := g.heap ++ [⟨deviceType, taskCounter⟩]
        search_ := fun t => if t = thread then some obj else g.search_ t })

/-- A serialized sequence of `GetSearch` calls, each given as
(thread, taskCounter): the pointers returned, in call order, and the final state. -/
def runSearch : God → List (Nat × Nat) → List Nat × God
  | g, [] => ([], g)
  | g, (thread, taskCounter) :: calls =>
    let r := GetSearch g thread taskCounter
    let rs := runSearch r.2 calls
    (r.1 :: rs.1, rs.2)

/-- Number of sessions constructed so far with device type `GPUDevice`. -/
def gpuSessions (g : God) : Nat :=
  (g.heap.filter (fun s => s.deviceType = DeviceType.GPUDevice)).length

/-- The session a pointer refers to. -/
def deref (g : God) (obj : Nat) : Option Search := g.heap.get? obj

/-- The scorer names `LoadScorers` registers for a device class, in the order
of the `scorers` entries of the configuration. -/
def registeredNames (config : Config) : DeviceType → List String
  | .CPUDevice => if config.cpuThreads ≠ 0 then config.scorers.map Prod.fst else []
  | .GPUDevice =>
    if config.CUDA ∧ config.gpuThreads > 0 ∧ config.devices.length > 0 then
      config.scorers.map Prod.fst
    else []

/-- The loader map of a device class. -/
def loadersOf (g : God) : DeviceType → StdMap Loader
  | .CPUDevice => g.cpuLoaders_
  | .GPUDevice => g.gpuLoaders_

/-- The device class the static partition assigns to a thread. -/
def classOf (config : Config) (threadId : Nat) : DeviceType :=
  if threadId < config.cpuThreads then .CPUDevice else .GPUDevice

/-- Closed form of the number of `GPUDevice` sessions among the first
`created` sessions constructed on an orchestrator whose counter started at 0:
the counter runs through `0 .. SIZE_MOD - 1` once per `SIZE_MOD` creations. -/
def gpuCount (created cap : Nat) : Nat :=
  (created / SIZE_MOD) * min cap SIZE_MOD + min (created % SIZE_MOD) cap

/-- The sessions the dynamic policy constructs for a sequence of creating
calls, the first of which is the `n`-th creation on the orchestrator. -/
def policySessions (cap : Nat) : Nat → List (Nat × Nat) → List Search
  | _, [] => []
  | n, (_, taskCounter) :: calls =>
    ⟨if n % SIZE_MOD < cap then .GPUDevice else .CPUDevice, taskCounter⟩ ::
      policySessions cap (n + 1) calls

/-- The counter and the GPU census agree with the number of sessions constructed. -/
def Consistent (g : God) : Prop :=
  g.numGPUThreads_ = g.heap.length % SIZE_MOD ∧
  gpuSessions g = gpuCount g.heap.length g.config_.gpuThreads

/-! ## Scenarios -/

/-- A configuration without GPU capacity. -/
def configCpuOnly : Config :=
  { CUDA := false, cpuThreads := 2, gpuThreads := 0, devices := [],
    scorers := [], softmaxFilter := [], bpe := .absent, noDebpe := false }

/-- One first call from each of the threads `0 .. n - 1`, thread `i` asking for task `i`. -/
def firstCalls (n : Nat) : List (Nat × Nat) := (List.range n).map (fun i => (i, i))

/-- The configuration of the scenarios: two scorers registered as "b" then "a". -/
def configBA : Config :=
  { CUDA := true, cpuThreads := 2, gpuThreads := 1, devices := [0],
    scorers := [("b", "nematus"), ("a", "kenlm")], softmaxFilter := [],
    bpe := .absent, noDebpe := false }

/-- The scenario configuration with the given `softmax-filter` arguments. -/
def configFilter (args : List String) : Config :=
  { CUDA := false, cpuThreads := 2, gpuThreads := 0, devices := [],
    scorers := [], softmaxFilter := args, bpe := .absent, noDebpe := false }

/-- The scenario configuration with the given `bpe` option. -/
def configBpe (bpe : BpeOption) : Config :=
  { CUDA := false, cpuThreads := 2, gpuThreads := 0, devices := [],
    scorers := [], softmaxFilter := [], bpe := bpe, noDebpe := false }

/-- A subword processor that splits every token into its characters. -/
def charBPE (_ : String) : Preprocessor :=
  ⟨fun tokens => tokens.flatMap (fun t => t.toList.map (fun c => String.mk [c]))⟩

end God

/-! ## The key order -/

theorem nameKey_injective : Function.Injective nameKey := by
  intro a b h
  unfold nameKey at h
  have hc : Function.Injective Char.toNat := by
    intro x y hxy
    have := congrArg Char.ofNat hxy
    simpa using this
  have := List.map_injective_iff.mpr hc h
  exact String.ext this

theorem nameLess_irrefl (a : String) : ¬ nameLess a a := lt_irrefl (nameKey a)

theorem nameLess_trans {a b c : String} (h1 : nameLess a b) (h2 : nameLess b c) :
    nameLess a c := lt_trans (α := List Nat) h1 h2

theorem eq_of_not_nameLess {a b : String} (h1 : ¬ nameLess a b) (h2 : ¬ nameLess b a) :
    a = b := by
  apply nameKey_injective
  unfold nameLess at h1 h2
  exact le_antisymm (not_lt.mp h2) (not_lt.mp h1)

/-! ## `std::map::emplace` -/

theorem StdMap.mem_emplace {V : Type} (m : StdMap V) (k : String) (v : V) (x : String × V) :
    x ∈ StdMap.emplace m k v → x = (k, v) ∨ x ∈ m := by
  induction m with
  | nil => intro h; simp [StdMap.emplace] at h; exact Or.inl h
  | cons hd tl ih =>
    obtain ⟨k', v'⟩ := hd
    intro h
    unfold StdMap.emplace at h
    split_ifs at h with h1 h2
    · rcases List.mem_cons.mp h with h | h
      · exact Or.inl h
      · exact Or.inr h
    · rcases List.mem_cons.mp h with h | h
      · exact Or.inr (h ▸ List.mem_cons_self _ _)
      · rcases ih h with h | h
        · exact Or.inl h
        · exact Or.inr (List.mem_cons_of_mem _ h)
    · exact Or.inr h

theorem StdMap.mem_keys_emplace {V : Type} (m : StdMap V) (k : String) (v : V) (x : String) :
    x ∈ (StdMap.emplace m k v).map_keys ↔ x = k ∨ x ∈ m.map_keys := by
  induction m with
  | nil => simp [StdMap.emplace, StdMap.map_keys]
  | cons hd tl ih =>
    obtain ⟨k', v'⟩ := hd
    unfold StdMap.emplace
    simp only [StdMap.map_keys] at ih ⊢
    split_ifs with h1 h2
    · simp
    · simp only [List.map_cons, List.mem_cons, ih]
      tauto
    · have hk : k = k' := eq_of_not_nameLess h1 h2
      subst hk
      simp

theorem StdMap.sorted_emplace {V : Type} (m : StdMap V) (k : String) (v : V)
    (hs : m.map_keys.Sorted nameLess) : (StdMap.emplace m k v).map_keys.Sorted nameLess := by
  induction m with
  | nil => simp [StdMap.emplace, StdMap.map_keys]
  | cons hd tl ih =>
    obtain ⟨k', v'⟩ := hd
    have hs' : List.Sorted nameLess (k' :: StdMap.map_keys tl) := hs
    rw [List.sorted_cons] at hs'
    unfold StdMap.emplace
    split_ifs with h1 h2
    · show List.Sorted nameLess (k :: k' :: StdMap.map_keys tl)
      rw [List.sorted_cons]
      refine ⟨?_, hs⟩
      intro b hb
      rcases List.mem_cons.mp hb with hb | hb
      · exact hb ▸ h1
      · exact nameLess_trans h1 (hs'.1 b hb)
    · show List.Sorted nameLess (k' :: StdMap.map_keys (StdMap.emplace tl k v))
      rw [List.sorted_cons]
      refine ⟨?_, ih hs'.2⟩
      intro b hb
      rcases (StdMap.mem_keys_emplace tl k v b).mp hb with hb | hb
      · exact hb ▸ h2
      · exact hs'.1 b hb
    · exact hs

/-! ## `God::LoadScorers` -/

namespace God

theorem registerAll_sorted (mode : DeviceType) (scorers : List (String × String))
    (m : StdMap Loader) (hs : m.map_keys.Sorted nameLess) :
    (registerAll mode scorers m).map_keys.Sorted nameLess := by
  induction scorers generalizing m with
  | nil => exact hs
  | cons p ps ih => exact ih _ (StdMap.sorted_emplace m _ _ hs)

theorem mem_keys_registerAll (mode : DeviceType) (scorers : List (String × String))
    (m : StdMap Loader) (x : String) :
    x ∈ (registerAll mode scorers m).map_keys ↔ x ∈ scorers.map Prod.fst ∨ x ∈ m.map_keys := by
  induction scorers generalizing m with
  | nil => simp [registerAll]
  | cons p ps ih =>
    have := ih (StdMap.emplace m p.1 ⟨p.1, p.2, mode⟩)
    simp only [registerAll, List.foldl_cons] at this ⊢
    rw [this, StdMap.mem_keys_emplace]
    simp only [List.map_cons, List.mem_cons]
    tauto

theorem mem_registerAll (mode : DeviceType) (scorers : List (String × String))
    (m : StdMap Loader) (x : String × Loader) (hx : x ∈ registerAll mode scorers m) :
    x ∈ m ∨ (x.2.mode = mode ∧ x.2.name = x.1 ∧ (x.1, x.2.config) ∈ scorers) := by
  induction scorers generalizing m with
  | nil => exact Or.inl hx
  | cons p ps ih =>
    simp only [registerAll, List.foldl_cons] at hx
    rcases ih _ hx with h | h
    · rcases StdMap.mem_emplace m _ _ x h with h | h
      · subst h
        exact Or.inr ⟨rfl, rfl, List.mem_cons_self _ _⟩
      · exact Or.inl h
    · exact Or.inr ⟨h.1, h.2.1, List.mem_cons_of_mem _ h.2.2⟩

theorem loadersOf_LoadScorers (config : Config) (mode : DeviceType) :
    (loadersOf (LoadScorers (construct config)) mode).map_keys.Sorted nameLess ∧
    (∀ n, n ∈ (loadersOf (LoadScorers (construct config)) mode).map_keys ↔
      n ∈ registeredNames config mode) ∧
    (∀ e ∈ loadersOf (LoadScorers (construct config)) mode,
      e.2.mode = mode ∧ e.2.name = e.1 ∧ (e.1, e.2.config) ∈ config.scorers) := by
  have hnil : (StdMap.map_keys ([] : StdMap Loader)).Sorted nameLess := List.sorted_nil
  cases mode with
  | CPUDevice =>
    simp only [loadersOf, LoadScorers, construct, registeredNames]
    split_ifs with h
    · refine ⟨registerAll_sorted _ _ _ hnil, fun n => ?_, fun e he => ?_⟩
      · rw [mem_keys_registerAll]; simp [StdMap.map_keys]
      · rcases mem_registerAll _ _ _ e he with h' | h'
        · simp at h'
        · exact h'
    · exact ⟨hnil, fun n => by simp [StdMap.map_keys], fun e he => by simp at he⟩
  | GPUDevice =>
    simp only [loadersOf, LoadScorers, construct, registeredNames]
    split_ifs with h
    · refine ⟨registerAll_sorted _ _ _ hnil, fun n => ?_, fun e he => ?_⟩
      · rw [mem_keys_registerAll]; simp [StdMap.map_keys]
      · rcases mem_registerAll _ _ _ e he with h' | h'
        · simp at h'
        · exact h'
    · exact ⟨hnil, fun n => by simp [StdMap.map_keys], fun e he => by simp at he⟩

theorem config_LoadScorers (config : Config) :
    (LoadScorers (construct config)).config_ = config := rfl

theorem sizeSub_of_le {a b : Nat} (ha : a < SIZE_MOD) (hb : b ≤ a) : sizeSub a b = a - b := by
  unfold sizeSub
  have hb' : b % SIZE_MOD = b := Nat.mod_eq_of_lt (lt_of_le_of_lt hb ha)
  rw [hb']
  have : a + SIZE_MOD - b = (a - b) + SIZE_MOD := by omega
  rw [this, Nat.add_mod_right]
  exact Nat.mod_eq_of_lt (lt_of_le_of_lt (Nat.sub_le a b) ha)

/-! ## The static partition: `GetScorers`, `GetBestHyps`, `GetScorerNames` -/

/-- The scorers minted from the entries of the loader map of a class: their
loader names are strictly ascending (no name twice), are exactly the names
registered for the class, and every scorer has the mode of the class and the
given index. -/
theorem scorers_of_entries (config : Config) (mode : DeviceType) (index : Nat) :
    (List.map (fun s : Scorer => s.loader.name)
      (List.map (fun e : String × Loader => Scorer.mk e.2 index)
        (loadersOf (LoadScorers (construct config)) mode))).Pairwise nameLess ∧
    (∀ n, n ∈ List.map (fun s : Scorer => s.loader.name)
        (List.map (fun e : String × Loader => Scorer.mk e.2 index)
          (loadersOf (LoadScorers (construct config)) mode)) ↔
      n ∈ registeredNames config mode) ∧
    ∀ s ∈ List.map (fun e : String × Loader => Scorer.mk e.2 index)
        (loadersOf (LoadScorers (construct config)) mode),
      s.loader.mode = mode ∧ s.index = index := by
  obtain ⟨hs, hmem, hent⟩ := loadersOf_LoadScorers config mode
  have hnames : List.map (fun s : Scorer => s.loader.name)
      (List.map (fun e : String × Loader => Scorer.mk e.2 index)
        (loadersOf (LoadScorers (construct config)) mode)) =
      StdMap.map_keys (loadersOf (LoadScorers (construct config)) mode) := by
    rw [List.map_map]
    unfold StdMap.map_keys
    apply List.map_congr_left
    intro e he
    exact (hent e he).2.1
  rw [hnames]
  refine ⟨hs, hmem, ?_⟩
  intro s hsmem
  obtain ⟨e, he, rfl⟩ := List.mem_map.mp hsmem
  exact ⟨(hent e he).1, rfl⟩

theorem GetScorers_eq_entries (g : God) (threadId : Nat) :
    GetScorers g threadId =
      if threadId < g.config_.cpuThreads then
        List.map (fun e : String × Loader => Scorer.mk e.2 threadId) g.cpuLoaders_
      else
        List.map (fun e : String × Loader =>
          Scorer.mk e.2 (sizeSub threadId g.config_.cpuThreads)) g.gpuLoaders_ := by
  unfold GetScorers StdMap.map_values Loader.NewScorer
  simp only [List.map_map]
  rfl

/-- C1: after `LoadScorers`, `GetScorers(threadId)` with `threadId < cpuThreads`
returns, entry by entry of the CPU loader map, the scorer minted by the loader
of that entry with index `threadId`: exactly one scorer for each scorer name
registered for the CPU class (the loader names of the scorers are strictly
ascending and are exactly the registered names), every one minted by a CPU
loader.  With `threadId >= cpuThreads` the same holds of the GPU loader map,
with the index `threadId - cpuThreads`, the `size_t` subtraction not wrapping
(`index + cpuThreads = threadId`). -/
theorem GetScorers_static_partition (config : Config) (threadId : Nat)
    (hthread : threadId < SIZE_MOD) :
    (threadId < config.cpuThreads →
      GetScorers (LoadScorers (construct config)) threadId =
        List.map (fun e : String × Loader => Scorer.mk e.2 threadId)
          (LoadScorers (construct config)).cpuLoaders_ ∧
      (GetScorers (LoadScorers (construct config)) threadId).length =
        (LoadScorers (construct config)).cpuLoaders_.length ∧
      (List.map (fun s : Scorer => s.loader.name)
        (GetScorers (LoadScorers (construct config)) threadId)).Pairwise nameLess ∧
      (∀ n, n ∈ List.map (fun s : Scorer => s.loader.name)
          (GetScorers (LoadScorers (construct config)) threadId) ↔
        n ∈ registeredNames config .CPUDevice) ∧
      (GetScorers (LoadScorers (construct config)) threadId).map Scorer.loader =
        (LoadScorers (construct config)).cpuLoaders_.map_values ∧
      ∀ s ∈ GetScorers (LoadScorers (construct config)) threadId,
        s.loader.mode = .CPUDevice ∧ s.index = threadId) ∧
    (config.cpuThreads ≤ threadId →
      GetScorers (LoadScorers (construct config)) threadId =
        List.map (fun e : String × Loader => Scorer.mk e.2 (threadId - config.cpuThreads))
          (LoadScorers (construct config)).gpuLoaders_ ∧
      (GetScorers (LoadScorers (construct config)) threadId).length =
        (LoadScorers (construct config)).gpuLoaders_.length ∧
      (List.map (fun s : Scorer => s.loader.name)
        (GetScorers (LoadScorers (construct config)) threadId)).Pairwise nameLess ∧
      (∀ n, n ∈ List.map (fun s : Scorer => s.loader.name)
          (GetScorers (LoadScorers (construct config)) threadId) ↔
        n ∈ registeredNames config .GPUDevice) ∧
      (GetScorers (LoadScorers (construct config)) threadId).map Scorer.loader =
        (LoadScorers (construct config)).gpuLoaders_.map_values ∧
      ∀ s ∈ GetScorers (LoadScorers (construct config)) threadId,
        s.loader.mode = .GPUDevice ∧ s.index = threadId - config.cpuThreads ∧
          s.index + config.cpuThreads = threadId) := by
  constructor
  · intro hlt
    have hif : threadId < (LoadScorers (construct config)).config_.cpuThreads := hlt
    have heq : GetScorers (LoadScorers (construct config)) threadId =
        List.map (fun e : String × Loader => Scorer.mk e.2 threadId)
          (LoadScorers (construct config)).cpuLoaders_ := by
      rw [GetScorers_eq_entries, if_pos hif]
    obtain ⟨h1, h2, h3⟩ := scorers_of_entries config .CPUDevice threadId
    simp only [loadersOf] at h1 h2 h3
    rw [heq]
    refine ⟨rfl, List.length_map _ _, h1, h2, ?_, h3⟩
    unfold StdMap.map_values
    rw [List.map_map]
    rfl
  · intro hle
    have hif : ¬ threadId < (LoadScorers (construct config)).config_.cpuThreads :=
      not_lt.mpr hle
    have hsub : sizeSub threadId config.cpuThreads = threadId - config.cpuThreads :=
      sizeSub_of_le hthread hle
    have heq : GetScorers (LoadScorers (construct config)) threadId =
        List.map (fun e : String × Loader => Scorer.mk e.2 (threadId - config.cpuThreads))
          (LoadScorers (construct config)).gpuLoaders_ := by
      rw [GetScorers_eq_entries, if_neg hif, config_LoadScorers, hsub]
    obtain ⟨h1, h2, h3⟩ :=
      scorers_of_entries config .GPUDevice (threadId - config.cpuThreads)
    simp only [loadersOf] at h1 h2 h3
    rw [heq]
    refine ⟨rfl, List.length_map _ _, h1, h2, ?_, ?_⟩
    · unfold StdMap.map_values
      rw [List.map_map]
      rfl
    · intro s hs
      obtain ⟨hm, hi⟩ := h3 s hs
      refine ⟨hm, hi, ?_⟩
      rw [hi]; omega

/-- C1 on the scenario configuration with two CPU threads and the scorers "b"
and "a": thread 1 gets the scorers of the CPU loaders "a" and "b" with index 1,
thread 2 the scorers of the GPU loaders "a" and "b" with index 0. -/
theorem GetScorers_static_partition_witness :
    (1 < SIZE_MOD ∧ 1 < configBA.cpuThreads ∧
      GetScorers (LoadScorers (construct configBA)) 1 =
        [⟨⟨"a", "kenlm", .CPUDevice⟩, 1⟩, ⟨⟨"b", "nematus", .CPUDevice⟩, 1⟩] ∧
      (∀ n, n ∈ List.map (fun s : Scorer => s.loader.name)
          (GetScorers (LoadScorers (construct configBA)) 1) ↔
        n ∈ registeredNames configBA .CPUDevice) ∧
      ∀ s ∈ GetScorers (LoadScorers (construct configBA)) 1,
        s.loader.mode = .CPUDevice ∧ s.index = 1) ∧
    (2 < SIZE_MOD ∧ configBA.cpuThreads ≤ 2 ∧
      GetScorers (LoadScorers (construct configBA)) 2 =
        [⟨⟨"a", "kenlm", .GPUDevice⟩, 0⟩, ⟨⟨"b", "nematus", .GPUDevice⟩, 0⟩] ∧
      (∀ n, n ∈ List.map (fun s : Scorer => s.loader.name)
          (GetScorers (LoadScorers (construct configBA)) 2) ↔
        n ∈ registeredNames configBA .GPUDevice) ∧
      ∀ s ∈ GetScorers (LoadScorers (construct configBA)) 2,
        s.loader.mode = .GPUDevice ∧ s.index = 2 - configBA.cpuThreads ∧
          s.index + configBA.cpuThreads = 2) :=
  ⟨⟨by decide, by decide,
      ((GetScorers_static_partition configBA 1 (by decide)).1 (by decide)).1,
      ((GetScorers_static_partition configBA 1 (by decide)).1 (by decide)).2.2.2.1,
      ((GetScorers_static_partition configBA 1 (by decide)).1 (by decide)).2.2.2.2.2⟩,
    ⟨by decide, by decide,
      ((GetScorers_static_partition configBA 2 (by decide)).2 (by decide)).1,
      ((GetScorers_static_partition configBA 2 (by decide)).2 (by decide)).2.2.2.1,
      ((GetScorers_static_partition configBA 2 (by decide)).2 (by decide)).2.2.2.2.2⟩⟩

theorem GetBestHyps_eq (g : God) (threadId : Nat) :
    GetBestHyps g threadId =
      (loadersOf g (classOf g.config_ threadId)).beginSecond.map Loader.GetBestHyps := by
  by_cases h : threadId < g.config_.cpuThreads
  · simp [GetBestHyps, classOf, h, loadersOf]
  · simp [GetBestHyps, classOf, h, loadersOf]

/-- C6 (as the code has it): `GetScorerNames` lists the keys of the CPU map and
then the keys of the GPU map; each block is in strictly ascending order of the
names (the iteration order of the map, duplicates collapsed) and holds exactly
the names registered for the class. -/
theorem GetScorerNames_ascending (config : Config) :
    GetScorerNames (LoadScorers (construct config)) =
      (loadersOf (LoadScorers (construct config)) .CPUDevice).map_keys ++
        (loadersOf (LoadScorers (construct config)) .GPUDevice).map_keys ∧
    ∀ mode : DeviceType,
      (loadersOf (LoadScorers (construct config)) mode).map_keys.Sorted nameLess ∧
      ∀ n, n ∈ (loadersOf (LoadScorers (construct config)) mode).map_keys ↔
        n ∈ registeredNames config mode :=
  ⟨rfl, fun mode =>
    ⟨(loadersOf_LoadScorers config mode).1, (loadersOf_LoadScorers config mode).2.1⟩⟩

/-- C6 fails as stated: with the scorers registered in the order "b", "a" the
enumeration is "a", "b" within each block, not the registration order. -/
theorem GetScorerNames_not_registration_order :
    registeredNames configBA .CPUDevice = ["b", "a"] ∧
    registeredNames configBA .GPUDevice = ["b", "a"] ∧
    GetScorerNames (LoadScorers (construct configBA)) = ["a", "b", "a", "b"] ∧
    GetScorerNames (LoadScorers (construct configBA)) ≠
      registeredNames configBA .CPUDevice ++ registeredNames configBA .GPUDevice := by
  decide

/-- C7 (as the code has it): when the class of `threadId` has a loader,
`GetBestHyps(threadId)` returns the strategy of a loader of that class that was
created from an entry of `scorers` and whose name is the least of the names
registered for the class. -/
theorem GetBestHyps_least_name (config : Config) (threadId : Nat)
    (hne : loadersOf (LoadScorers (construct config)) (classOf config threadId) ≠ []) :
    ∃ bh, GetBestHyps (LoadScorers (construct config)) threadId = some bh ∧
      bh.owner.mode = classOf config threadId ∧
      bh.owner.name ∈ registeredNames config (classOf config threadId) ∧
      (bh.owner.name, bh.owner.config) ∈ config.scorers ∧
      ∀ n ∈ registeredNames config (classOf config threadId), ¬ nameLess n bh.owner.name := by
  obtain ⟨hs, hmem, hent⟩ := loadersOf_LoadScorers config (classOf config threadId)
  rw [GetBestHyps_eq, config_LoadScorers]
  cases hm : loadersOf (LoadScorers (construct config)) (classOf config threadId) with
  | nil => exact absurd hm hne
  | cons e tl =>
    rw [hm] at hs hmem hent
    have he := hent e (List.mem_cons_self _ _)
    have hs' : List.Sorted nameLess (e.1 :: StdMap.map_keys tl) := hs
    rw [List.sorted_cons] at hs'
    refine ⟨⟨e.2⟩, rfl, he.1, ?_, ?_, ?_⟩
    · show e.2.name ∈ _
      rw [he.2.1, ← hmem]
      exact List.mem_cons_self _ _
    · show (e.2.name, e.2.config) ∈ _
      rw [he.2.1]; exact he.2.2
    · intro n hn
      show ¬ nameLess n e.2.name
      rw [he.2.1]
      have hn' : n ∈ e.1 :: StdMap.map_keys tl := (hmem n).mpr hn
      rcases List.mem_cons.mp hn' with h | h
      · rw [h]; exact nameLess_irrefl _
      · intro hlt
        exact nameLess_irrefl _ (nameLess_trans hlt (hs'.1 n h))

/-- C7 on the scenario configuration, thread 0. -/
theorem GetBestHyps_least_name_witness :
    loadersOf (LoadScorers (construct configBA)) (classOf configBA 0) ≠ [] ∧
    ∃ bh, GetBestHyps (LoadScorers (construct configBA)) 0 = some bh ∧
      bh.owner.mode = classOf configBA 0 ∧
      bh.owner.name ∈ registeredNames configBA (classOf configBA 0) ∧
      (bh.owner.name, bh.owner.config) ∈ configBA.scorers ∧
      ∀ n ∈ registeredNames configBA (classOf configBA 0), ¬ nameLess n bh.owner.name :=
  ⟨by decide, GetBestHyps_least_name configBA 0 (by decide)⟩

/-- C7 fails as stated: with the scorers registered in the order "b", "a",
`GetBestHyps` hands out the strategy of the loader "a" for a CPU thread and for
a GPU thread, while the first-registered loader is "b". -/
theorem GetBestHyps_not_first_registered :
    (registeredNames configBA .CPUDevice).head? = some "b" ∧
    (registeredNames configBA .GPUDevice).head? = some "b" ∧
    GetBestHyps (LoadScorers (construct configBA)) 0 =
      some ⟨⟨"a", "kenlm", .CPUDevice⟩⟩ ∧
    GetBestHyps (LoadScorers (construct configBA)) 2 =
      some ⟨⟨"a", "kenlm", .GPUDevice⟩⟩ := by
  decide

/-! ## `God::GetSearch` -/

theorem GetSearch_hit (g : God) (thread taskCounter obj : Nat)
    (h : g.search_ thread = some obj) : GetSearch g thread taskCounter = (obj, g) := by
  simp [GetSearch, h]

theorem GetSearch_miss (g : God) (thread taskCounter : Nat) (h : g.search_ thread = none) :
    GetSearch g thread taskCounter =
      (g.heap.length,
        { g with
          numGPUThreads_ := sizeAdd g.numGPUThreads_ 1
          heap := g.heap ++ [⟨if g.numGPUThreads_ < g.config_.gpuThreads then
            DeviceType.GPUDevice else DeviceType.CPUDevice, taskCounter⟩]
          search_ := fun t => if t = thread then some g.heap.length else g.search_ t }) := by
  simp [GetSearch, h]

theorem config_GetSearch (g : God) (thread taskCounter : Nat) :
    (GetSearch g thread taskCounter).2.config_ = g.config_ := by
  cases h : g.search_ thread with
  | none => rw [GetSearch_miss g thread taskCounter h]
  | some obj => rw [GetSearch_hit g thread taskCounter obj h]

theorem config_runSearch (g : God) (calls : List (Nat × Nat)) :
    (runSearch g calls).2.config_ = g.config_ := by
  induction calls generalizing g with
  | nil => rfl
  | cons c cs ih =>
    obtain ⟨t, k⟩ := c
    simp only [runSearch]
    rw [ih, config_GetSearch]

theorem gpuCount_succ (created cap : Nat) :
    gpuCount (created + 1) cap =
      gpuCount created cap + (if created % SIZE_MOD < cap then 1 else 0) := by
  unfold gpuCount
  have hM : SIZE_MOD = 18446744073709551616 := by decide
  rw [hM]
  by_cases hw : created % 18446744073709551616 + 1 < 18446744073709551616
  · have h1 : (created + 1) / 18446744073709551616 = created / 18446744073709551616 := by
      omega
    have h2 : (created + 1) % 18446744073709551616 = created % 18446744073709551616 + 1 := by
      omega
    rw [h1, h2]
    split_ifs with hc <;> omega
  · have h1 : (created + 1) / 18446744073709551616 = created / 18446744073709551616 + 1 := by
      omega
    have h2 : (created + 1) % 18446744073709551616 = 0 := by omega
    rw [h1, h2, Nat.add_mul, Nat.one_mul]
    split_ifs with hc <;> omega

theorem Consistent_construct (config : Config) : Consistent (construct config) := by
  constructor
  · rfl
  · simp [gpuSessions, construct, gpuCount]

theorem Consistent_GetSearch (g : God) (thread taskCounter : Nat) (h : Consistent g) :
    Consistent (GetSearch g thread taskCounter).2 := by
  cases hs : g.search_ thread with
  | some obj => rw [GetSearch_hit g thread taskCounter obj hs]; exact h
  | none =>
    rw [GetSearch_miss g thread taskCounter hs]
    obtain ⟨hc, hg⟩ := h
    unfold gpuSessions at hg
    constructor
    · simp only [List.length_append, List.length_singleton, sizeAdd, hc]
      exact Nat.add_mod_mod _ _ _ ▸ (Nat.mod_add_mod _ _ _)
    · simp only [gpuSessions, List.length_append, List.length_singleton, List.filter_append,
        gpuCount_succ, hg, hc]
      congr 1
      by_cases hlt : g.heap.length % SIZE_MOD < g.config_.gpuThreads
      · simp [hlt]
      · simp [hlt]

theorem Consistent_runSearch (g : God) (calls : List (Nat × Nat)) (h : Consistent g) :
    Consistent (runSearch g calls).2 := by
  induction calls generalizing g with
  | nil => exact h
  | cons c cs ih =>
    obtain ⟨t, k⟩ := c
    simp only [runSearch]
    exact ih _ (Consistent_GetSearch g t k h)

theorem policySessions_length (cap : Nat) (n : Nat) (calls : List (Nat × Nat)) :
    (policySessions cap n calls).length = calls.length := by
  induction calls generalizing n with
  | nil => rfl
  | cons c cs ih => obtain ⟨t, k⟩ := c; simp [policySessions, ih]

theorem policySessions_getElem? (cap : Nat) (s : Nat) (calls : List (Nat × Nat)) (n : Nat) :
    (policySessions cap s calls)[n]? =
      calls[n]?.map (fun c =>
        ⟨if (s + n) % SIZE_MOD < cap then .GPUDevice else .CPUDevice, c.2⟩) := by
  induction calls generalizing s n with
  | nil => simp [policySessions]
  | cons c cs ih =>
    obtain ⟨t, k⟩ := c
    cases n with
    | zero => simp [policySessions]
    | succ m =>
      simp only [policySessions, List.getElem?_cons_succ, ih]
      have : s + 1 + m = s + (m + 1) := by omega
      rw [this]

/-- First calls from pairwise distinct threads that have no session yet: the
pointers returned are the next heap positions and the heap grows by the
sessions the policy dictates. -/
theorem runSearch_fresh (calls : List (Nat × Nat)) (g : God)
    (hnodup : (calls.map Prod.fst).Nodup) (hfresh : ∀ c ∈ calls, g.search_ c.1 = none)
    (hc : g.numGPUThreads_ = g.heap.length % SIZE_MOD) :
    (runSearch g calls).1 = List.range' g.heap.length calls.length ∧
    (runSearch g calls).2.heap =
      g.heap ++ policySessions g.config_.gpuThreads g.heap.length calls := by
  induction calls generalizing g with
  | nil => simp [runSearch, policySessions]
  | cons c cs ih =>
    obtain ⟨t, k⟩ := c
    have ht : g.search_ t = none := hfresh (t, k) (List.mem_cons_self _ _)
    rw [List.map_cons, List.nodup_cons] at hnodup
    simp only [runSearch]
    rw [GetSearch_miss g t k ht]
    have hstep := ih
      { g with
        numGPUThreads_ := sizeAdd g.numGPUThreads_ 1
        heap := g.heap ++ [⟨if g.numGPUThreads_ < g.config_.gpuThreads then
          DeviceType.GPUDevice else DeviceType.CPUDevice, k⟩]
        search_ := fun t' => if t' = t then some g.heap.length else g.search_ t' }
      hnodup.2
      (by
        intro c hcmem
        have hne : c.1 ≠ t := by
          intro heq
          have hmem : c.1 ∈ cs.map Prod.fst := List.mem_map_of_mem Prod.fst hcmem
          rw [heq] at hmem
          exact hnodup.1 hmem
        simp only [if_neg hne]
        exact hfresh c (List.mem_cons_of_mem _ hcmem))
      (by
        simp only [List.length_append, List.length_singleton, sizeAdd, hc]
        exact Nat.add_mod_mod _ _ _ ▸ (Nat.mod_add_mod _ _ _))
    simp only [List.length_append, List.length_singleton] at hstep
    refine ⟨?_, ?_⟩
    · simp only [hstep.1, List.length_cons]
      rfl
    · rw [hstep.2]
      simp only [policySessions, List.append_assoc, List.singleton_append, hc]

theorem GetSearch_publishes (g : God) (thread taskCounter : Nat) :
    (GetSearch g thread taskCounter).2.search_ thread =
      some (GetSearch g thread taskCounter).1 := by
  cases hs : g.search_ thread with
  | some obj => rw [GetSearch_hit g thread taskCounter obj hs]; exact hs
  | none => rw [GetSearch_miss g thread taskCounter hs]; simp

theorem GetSearch_keeps_slot (g : God) (caller taskCounter thread obj : Nat)
    (h : g.search_ thread = some obj) :
    (GetSearch g caller taskCounter).2.search_ thread = some obj := by
  cases hs : g.search_ caller with
  | some obj' => rw [GetSearch_hit g caller taskCounter obj' hs]; exact h
  | none =>
    rw [GetSearch_miss g caller taskCounter hs]
    have hne : thread ≠ caller := by
      intro heq
      rw [heq, hs] at h
      exact Option.noConfusion h
    simp only [if_neg hne]
    exact h

theorem GetSearch_then (g : God) (thread k k' : Nat) :
    GetSearch (GetSearch g thread k).2 thread k' =
      ((GetSearch g thread k).1, (GetSearch g thread k).2) :=
  GetSearch_hit _ thread k' _ (GetSearch_publishes g thread k)

/-- Once a thread has a session, every later call of that thread in a run
returns it and the slot of the thread keeps pointing at it. -/
theorem runSearch_existing (calls : List (Nat × Nat)) (g : God) (thread obj : Nat)
    (h : g.search_ thread = some obj) :
    (runSearch g calls).2.search_ thread = some obj ∧
    ∀ (n k : Nat), calls[n]? = some (thread, k) → (runSearch g calls).1[n]? = some obj := by
  induction calls generalizing g with
  | nil => exact ⟨h, fun n k hn => by simp at hn⟩
  | cons c cs ih =>
    obtain ⟨t, k0⟩ := c
    have hkeep := GetSearch_keeps_slot g t k0 thread obj h
    obtain ⟨ih1, ih2⟩ := ih (GetSearch g t k0).2 hkeep
    simp only [runSearch]
    refine ⟨ih1, ?_⟩
    intro n k hn
    cases n with
    | zero =>
      simp only [List.getElem?_cons_zero, Option.some.injEq, Prod.mk.injEq] at hn
      obtain ⟨ht, _⟩ := hn
      subst ht
      rw [GetSearch_hit g t k0 obj h]
      simp
    | succ m =>
      simp only [List.getElem?_cons_succ] at hn ⊢
      exact ih2 m k hn

/-- Two calls of one thread in a run, from any state: both return the same pointer. -/
theorem runSearch_same_thread (calls : List (Nat × Nat)) (g : God) (i j thread k k' : Nat)
    (hij : i < j) (hi : calls[i]? = some (thread, k)) (hj : calls[j]? = some (thread, k')) :
    ∃ obj, (runSearch g calls).1[i]? = some obj ∧ (runSearch g calls).1[j]? = some obj := by
  induction calls generalizing g i j with
  | nil => simp at hi
  | cons c cs ih =>
    obtain ⟨t, k0⟩ := c
    cases j with
    | zero => exact absurd hij (Nat.not_lt_zero _)
    | succ j' =>
      simp only [List.getElem?_cons_succ] at hj
      cases i with
      | zero =>
        simp only [List.getElem?_cons_zero, Option.some.injEq, Prod.mk.injEq] at hi
        obtain ⟨ht, _⟩ := hi
        subst ht
        refine ⟨(GetSearch g t k0).1, by simp [runSearch], ?_⟩
        simp only [runSearch, List.getElem?_cons_succ]
        exact (runSearch_existing cs (GetSearch g t k0).2 t (GetSearch g t k0).1
          (GetSearch_publishes g t k0)).2 j' k' hj
      | succ i' =>
        simp only [List.getElem?_cons_succ] at hi
        obtain ⟨obj, h1, h2⟩ := ih (GetSearch g t k0).2 i' j' (Nat.lt_of_succ_lt_succ hij) hi hj
        exact ⟨obj, by simpa [runSearch] using h1, by simpa [runSearch] using h2⟩

/-- C2 (as the code has it): two consecutive calls `GetSearch(k)` made by one
thread, from any state: the second call returns the pointer the first call
returned, constructs no session (the heap is unchanged) and leaves the counter
`numGPUThreads_` and the session slots unchanged. -/
theorem GetSearch_twice (g : God) (thread k : Nat) :
    (GetSearch (GetSearch g thread k).2 thread k).1 = (GetSearch g thread k).1 ∧
    (GetSearch (GetSearch g thread k).2 thread k).2.heap = (GetSearch g thread k).2.heap ∧
    (GetSearch (GetSearch g thread k).2 thread k).2.numGPUThreads_ =
      (GetSearch g thread k).2.numGPUThreads_ ∧
    (GetSearch (GetSearch g thread k).2 thread k).2.search_ =
      (GetSearch g thread k).2.search_ := by
  rw [GetSearch_then]
  exact ⟨rfl, rfl, rfl, rfl⟩

/-- C2 fails as stated: on the fresh scenario orchestrator `GetSearch(4)` is
called twice in a row, by thread 1 and then by thread 2.  The second call
returns another session than the first, constructs it (two sessions exist
afterwards) and raises the counter from 1 to 2. -/
theorem GetSearch_twice_by_two_threads :
    (GetSearch (construct configBA) 1 4).1 = 0 ∧
    (GetSearch (GetSearch (construct configBA) 1 4).2 2 4).1 = 1 ∧
    (GetSearch (GetSearch (construct configBA) 1 4).2 2 4).1 ≠
      (GetSearch (construct configBA) 1 4).1 ∧
    (GetSearch (construct configBA) 1 4).2.heap.length = 1 ∧
    (GetSearch (GetSearch (construct configBA) 1 4).2 2 4).2.heap.length = 2 ∧
    (GetSearch (construct configBA) 1 4).2.numGPUThreads_ = 1 ∧
    (GetSearch (GetSearch (construct configBA) 1 4).2 2 4).2.numGPUThreads_ = 2 := by
  decide

/-- C3 (as the code has it): in every state reached from a fresh orchestrator
by a sequence of `GetSearch` calls in which at most `2^64` sessions have been
constructed, the number of `GPUDevice` sessions is at most the configured
`gpu-threads`. -/
theorem gpuSessions_le_capacity (config : Config) (calls : List (Nat × Nat))
    (hcreated : (runSearch (construct config) calls).2.heap.length ≤ SIZE_MOD) :
    gpuSessions (runSearch (construct config) calls).2 ≤ config.gpuThreads := by
  have h := (Consistent_runSearch _ calls (Consistent_construct config)).2
  rw [config_runSearch] at h
  rw [h]
  have hcfg : (construct config).config_.gpuThreads = config.gpuThreads := rfl
  rw [hcfg]
  unfold gpuCount
  have hM : SIZE_MOD = 18446744073709551616 := by decide
  rw [hM] at hcreated ⊢
  rcases Nat.lt_or_ge (runSearch (construct config) calls).2.heap.length
    18446744073709551616 with hlt | hge
  · rw [Nat.div_eq_of_lt hlt, Nat.mod_eq_of_lt hlt]
    omega
  · have heq : (runSearch (construct config) calls).2.heap.length = 18446744073709551616 :=
      le_antisymm hcreated hge
    rw [heq]
    omega

/-- C3 for four calls of three threads on the scenario configuration. -/
theorem gpuSessions_le_capacity_witness :
    (runSearch (construct configBA) [(0, 0), (1, 1), (0, 2), (2, 3)]).2.heap.length ≤ SIZE_MOD ∧
    gpuSessions (runSearch (construct configBA) [(0, 0), (1, 1), (0, 2), (2, 3)]).2 ≤
      configBA.gpuThreads :=
  ⟨by decide, gpuSessions_le_capacity configBA [(0, 0), (1, 1), (0, 2), (2, 3)] (by decide)⟩

theorem firstCalls_threads (n : Nat) : (firstCalls n).map Prod.fst = List.range n := by
  unfold firstCalls
  rw [List.map_map]
  exact List.map_id _

theorem firstCalls_length (n : Nat) : (firstCalls n).length = n := by
  unfold firstCalls
  rw [List.length_map, List.length_range]

theorem heap_length_firstCalls (config : Config) (n : Nat) :
    (runSearch (construct config) (firstCalls n)).2.heap.length = n := by
  have h := (runSearch_fresh (firstCalls n) (construct config)
    (by rw [firstCalls_threads]; exact List.nodup_range _)
    (fun _ _ => rfl) rfl).2
  rw [h, List.length_append, policySessions_length, firstCalls_length]
  show 0 + n = n
  rw [Nat.zero_add]

theorem gpuSessions_firstCalls (config : Config) (n : Nat) :
    gpuSessions (runSearch (construct config) (firstCalls n)).2 =
      gpuCount n config.gpuThreads := by
  have h := (Consistent_runSearch _ (firstCalls n) (Consistent_construct config)).2
  rw [config_runSearch, heap_length_firstCalls] at h
  exact h

/-- C3 fails as stated: with `gpu-threads = 1`, after the first calls of
`2^64 + 1` distinct threads the counter has wrapped to 0 once and two sessions
have been constructed with `GPUDevice`. -/
theorem gpuSessions_exceeds_capacity_after_wrap :
    configBA.gpuThreads = 1 ∧
    gpuSessions (runSearch (construct configBA) (firstCalls (SIZE_MOD + 1))).2 = 2 ∧
    ¬ gpuSessions (runSearch (construct configBA) (firstCalls (SIZE_MOD + 1))).2 ≤
      configBA.gpuThreads := by
  have hval : gpuCount (SIZE_MOD + 1) configBA.gpuThreads = 2 := by decide
  have h := gpuSessions_firstCalls configBA (SIZE_MOD + 1)
  rw [hval] at h
  refine ⟨rfl, h, ?_⟩
  rw [h]
  decide

/-- C4 (as the code has it): a call of a thread that already has a session
returns that session and changes nothing, whatever the task counter; in every
run of serialized calls, from any state, two calls of one thread return the
same session, whatever their task counters (the first of them publishes what
the later one finds); and for serialized first calls of pairwise distinct
threads on a fresh orchestrator, at most `2^64` of them, the `n`-th call (from
0) returns a pointer to a session constructed with that call's task counter,
of device type GPU if `n < gpu-threads` and CPU otherwise. -/
theorem GetSearch_dynamic_policy (config : Config) (calls : List (Nat × Nat))
    (hthreads : (calls.map Prod.fst).Nodup) (hlen : calls.length ≤ SIZE_MOD) :
    (∀ (g : God) (thread taskCounter obj : Nat), g.search_ thread = some obj →
      GetSearch g thread taskCounter = (obj, g)) ∧
    (∀ (g : God) (run : List (Nat × Nat)) (i j thread k k' : Nat), i < j →
      run[i]? = some (thread, k) → run[j]? = some (thread, k') →
      ∃ obj, (runSearch g run).1[i]? = some obj ∧ (runSearch g run).1[j]? = some obj) ∧
    ∀ n, n < calls.length →
      (runSearch (construct config) calls).1[n]? = some n ∧
      deref (runSearch (construct config) calls).2 n =
        calls[n]?.map (fun c =>
          ⟨if n < config.gpuThreads then .GPUDevice else .CPUDevice, c.2⟩) := by
  refine ⟨GetSearch_hit, fun g run i j thread k k' hij hi hj =>
    runSearch_same_thread run g i j thread k k' hij hi hj, fun n hn => ?_⟩
  obtain ⟨h1, h2⟩ := runSearch_fresh calls (construct config) hthreads (fun _ _ => rfl) rfl
  have hheap : (construct config).heap = [] := rfl
  have hcfg : (construct config).config_.gpuThreads = config.gpuThreads := rfl
  rw [hheap, hcfg, List.nil_append, List.length_nil] at h2
  rw [hheap, List.length_nil] at h1
  constructor
  · rw [h1, List.getElem?_range' _ _ hn]
    simp
  · unfold deref
    rw [h2, List.get?_eq_getElem?, policySessions_getElem?]
    have hmod : (0 + n) % SIZE_MOD = n := by
      rw [Nat.zero_add]
      exact Nat.mod_eq_of_lt (lt_of_lt_of_le hn hlen)
    rw [hmod]

/-- C4 on the scenario `cpu-threads = 2`, `gpu-threads = 1`: a second call of
thread 10, for another task, returns the session of its first call; in the
run of thread 10 (task 0), thread 11 (task 1), thread 10 (task 5) the first and
the third call return the same session; and the first calls of four distinct
threads for the tasks 0, 1, 2, 3. -/
theorem GetSearch_dynamic_policy_witness :
    ((GetSearch (construct configBA) 10 0).2.search_ 10 = some 0 ∧
      GetSearch (GetSearch (construct configBA) 10 0).2 10 5 =
        (0, (GetSearch (construct configBA) 10 0).2)) ∧
    ((0 : Nat) < 2 ∧
      ([(10, 0), (11, 1), (10, 5)] : List (Nat × Nat))[0]? = some (10, 0) ∧
      ([(10, 0), (11, 1), (10, 5)] : List (Nat × Nat))[2]? = some (10, 5) ∧
      ∃ obj, (runSearch (construct configBA) [(10, 0), (11, 1), (10, 5)]).1[0]? = some obj ∧
        (runSearch (construct configBA) [(10, 0), (11, 1), (10, 5)]).1[2]? = some obj) ∧
    (([(10, 0), (11, 1), (12, 2), (13, 3)] : List (Nat × Nat)).map Prod.fst).Nodup ∧
    ([(10, 0), (11, 1), (12, 2), (13, 3)] : List (Nat × Nat)).length ≤ SIZE_MOD ∧
    ∀ n, n < ([(10, 0), (11, 1), (12, 2), (13, 3)] : List (Nat × Nat)).length →
      (runSearch (construct configBA) [(10, 0), (11, 1), (12, 2), (13, 3)]).1[n]? = some n ∧
      deref (runSearch (construct configBA) [(10, 0), (11, 1), (12, 2), (13, 3)]).2 n =
        ([(10, 0), (11, 1), (12, 2), (13, 3)] : List (Nat × Nat))[n]?.map (fun c =>
          ⟨if n < configBA.gpuThreads then .GPUDevice else .CPUDevice, c.2⟩) :=
  ⟨⟨by decide,
      (GetSearch_dynamic_policy configBA [(10, 0), (11, 1), (12, 2), (13, 3)]
        (by decide) (by decide)).1 (GetSearch (construct configBA) 10 0).2 10 5 0
        (by decide)⟩,
    ⟨by decide, by decide, by decide,
      (GetSearch_dynamic_policy configBA [(10, 0), (11, 1), (12, 2), (13, 3)]
        (by decide) (by decide)).2.1 (construct configBA) [(10, 0), (11, 1), (10, 5)]
        0 2 10 0 5 (by decide) (by decide) (by decide)⟩,
    by decide, by decide,
    (GetSearch_dynamic_policy configBA [(10, 0), (11, 1), (12, 2), (13, 3)]
      (by decide) (by decide)).2.2⟩

/-- The scenario of C4 evaluated: first calls of four distinct threads bind to
GPU, CPU, CPU, CPU, each session carrying the task counter of its call. -/
theorem GetSearch_scenario_distinct_threads :
    (runSearch (construct configBA) [(10, 0), (11, 1), (12, 2), (13, 3)]).1.map
        (deref (runSearch (construct configBA) [(10, 0), (11, 1), (12, 2), (13, 3)]).2) =
      [some ⟨.GPUDevice, 0⟩, some ⟨.CPUDevice, 1⟩, some ⟨.CPUDevice, 2⟩,
        some ⟨.CPUDevice, 3⟩] := by
  decide

/-- C4 fails as stated: the serialized calls `GetSearch(0)`, `GetSearch(1)`,
`GetSearch(2)` and a fourth distinct task, made by one thread on the fresh
scenario orchestrator, all return the session constructed by the first call
(GPU, task counter 0), not sessions bound GPU, CPU, CPU, CPU for the tasks
0, 1, 2, 3. -/
theorem GetSearch_ignores_taskCounter :
    (runSearch (construct configBA) [(7, 0), (7, 1), (7, 2), (7, 3)]).1.map
        (deref (runSearch (construct configBA) [(7, 0), (7, 1), (7, 2), (7, 3)]).2) =
      [some ⟨.GPUDevice, 0⟩, some ⟨.GPUDevice, 0⟩, some ⟨.GPUDevice, 0⟩,
        some ⟨.GPUDevice, 0⟩] ∧
    (runSearch (construct configBA) [(7, 0), (7, 1), (7, 2), (7, 3)]).1.map
        (deref (runSearch (construct configBA) [(7, 0), (7, 1), (7, 2), (7, 3)]).2) ≠
      [some ⟨.GPUDevice, 0⟩, some ⟨.CPUDevice, 1⟩, some ⟨.CPUDevice, 2⟩,
        some ⟨.CPUDevice, 3⟩] := by
  decide

/-- C5 (as the code has it): the counter starts at 0; a call that finds the
session of its thread leaves it unchanged and a call that constructs a session
increments it modulo `2^64`, whether the session is bound to GPU or to CPU; so
after any sequence of calls it equals the number of sessions constructed,
modulo `2^64`. -/
theorem numGPUThreads_counts_sessions (config : Config) (calls : List (Nat × Nat)) :
    (construct config).numGPUThreads_ = 0 ∧
    (∀ (g : God) (thread taskCounter : Nat),
      (GetSearch g thread taskCounter).2.numGPUThreads_ =
        if (g.search_ thread).isSome then g.numGPUThreads_
        else sizeAdd g.numGPUThreads_ 1) ∧
    (runSearch (construct config) calls).2.numGPUThreads_ =
      (runSearch (construct config) calls).2.heap.length % SIZE_MOD := by
  refine ⟨rfl, ?_, (Consistent_runSearch _ calls (Consistent_construct config)).1⟩
  intro g thread taskCounter
  cases hs : g.search_ thread with
  | some obj => rw [GetSearch_hit g thread taskCounter obj hs]; rfl
  | none => rw [GetSearch_miss g thread taskCounter hs]; rfl

/-- C5 fails as stated: with `gpu-threads = 0` the first call constructs a
session bound to CPU and still increments the counter, which then exceeds the
capacity. -/
theorem numGPUThreads_incremented_for_CPU :
    configCpuOnly.gpuThreads = 0 ∧
    deref (GetSearch (construct configCpuOnly) 0 0).2 (GetSearch (construct configCpuOnly) 0 0).1 =
      some ⟨.CPUDevice, 0⟩ ∧
    (construct configCpuOnly).numGPUThreads_ = 0 ∧
    (GetSearch (construct configCpuOnly) 0 0).2.numGPUThreads_ = 1 ∧
    ¬ (GetSearch (construct configCpuOnly) 0 0).2.numGPUThreads_ ≤ configCpuOnly.gpuThreads := by
  decide

/-! ## `std::stoi` and `God::LoadFiltering` -/

theorem stoi_of_noConversion (s : String) (h : noConversion s = true) :
    stoi s = .error .invalid_argument := by
  unfold noConversion at h
  unfold stoi
  cases hd : List.dropWhile isspace s.toList with
  | nil => rfl
  | cons c cs =>
    rw [hd] at h
    simp only at h
    unfold stoiSigned
    by_cases hm : c = '-'
    · subst hm
      cases cs with
      | nil => rfl
      | cons d ds =>
        simp only [true_or, if_true, Bool.not_eq_true', decide_True] at h
        simp [h]
    · by_cases hp : c = '+'
      · subst hp
        cases cs with
        | nil => rfl
        | cons d ds =>
          simp only [or_true, if_true, Bool.not_eq_true', decide_True] at h
          simp [h]
      · simp only [hm, hp, or_self, if_false, Bool.not_eq_true', decide_False] at h
        simp [hm, hp, h]

theorem readDigits_eq (cs : List Char) (acc : Nat) :
    readDigits cs acc = acc * 10 ^ (cs.takeWhile isdigit).length +
      Nat.ofDigits 10 ((cs.takeWhile isdigit).map digitVal).reverse := by
  induction cs generalizing acc with
  | nil => simp [readDigits]
  | cons c t ih =>
    by_cases hc : isdigit c = true
    · simp only [readDigits, hc, if_true, ih, List.takeWhile_cons_of_pos, List.map_cons,
        List.reverse_cons, Nat.ofDigits_append, Nat.ofDigits_singleton, List.length_reverse,
        List.length_map, List.length_cons]
      ring
    · simp [readDigits, hc, List.takeWhile]

theorem leadingMagnitude_eq (s : String) :
    leadingMagnitude s = readDigits (signedBody s).2 0 := by
  unfold leadingMagnitude
  rw [readDigits_eq, Nat.zero_mul, Nat.zero_add]

theorem isdigit_minus : isdigit '-' = false := by decide

theorem isdigit_plus : isdigit '+' = false := by decide

/-- The model of `std::stoi` in terms of the sign and the text after it. -/
theorem stoi_eq (s : String) :
    stoi s =
      match (signedBody s).2 with
      | [] => .error .invalid_argument
      | d :: _ =>
        if isdigit d then
          if (signedBody s).1 then
            if readDigits (signedBody s).2 0 ≤ INT_MAX + 1 then
              .ok (-(readDigits (signedBody s).2 0 : Int))
            else .error .out_of_range
          else
            if readDigits (signedBody s).2 0 ≤ INT_MAX then
              .ok (readDigits (signedBody s).2 0 : Int)
            else .error .out_of_range
        else .error .invalid_argument := by
  unfold stoi signedBody
  cases hd : List.dropWhile isspace s.toList with
  | nil => rfl
  | cons c cs =>
    unfold stoiSigned
    by_cases hm : c = '-'
    · subst hm
      cases cs with
      | nil => rfl
      | cons d ds => simp
    · by_cases hp : c = '+'
      · subst hp
        cases cs with
        | nil => rfl
        | cons d ds => simp
      · simp [hm, hp]

theorem noConversion_eq (s : String) :
    noConversion s =
      match (signedBody s).2 with
      | [] => true
      | d :: _ => !isdigit d := by
  unfold noConversion signedBody
  cases hd : List.dropWhile isspace s.toList with
  | nil => rfl
  | cons c cs =>
    by_cases hm : c = '-'
    · subst hm
      cases cs with
      | nil => rfl
      | cons d ds => simp
    · by_cases hp : c = '+'
      · subst hp
        cases cs with
        | nil => rfl
        | cons d ds => simp
      · simp [hm, hp]

/-- The model of `std::stoi` throws exactly on the texts described by `stoiThrows`. -/
theorem stoi_error_iff (s : String) : (∃ e, stoi s = .error e) ↔ stoiThrows s = true := by
  unfold stoiThrows outsideInt
  rw [stoi_eq, noConversion_eq, leadingMagnitude_eq]
  cases hb : (signedBody s).2 with
  | nil => simp
  | cons d ds =>
    by_cases hd : isdigit d = true
    · by_cases hn : (signedBody s).1 = true
      · by_cases hr : readDigits (d :: ds) 0 ≤ INT_MAX + 1
        · simp [hd, hn, hr]
        · simp [hd, hn, hr]
          omega
      · by_cases hr : readDigits (d :: ds) 0 ≤ INT_MAX
        · simp [hd, hn, hr]
        · simp [hd, hn, hr]
          omega
    · simp [hd]

theorem stoi_ok_or_error (s : String) :
    (∃ n, stoi s = .ok n) ∨ ∃ e, stoi s = .error e := by
  cases stoi s with
  | ok n => exact Or.inl ⟨n, rfl⟩
  | error e => exact Or.inr ⟨e, rfl⟩

/-- C8 (as the code has it): with a non-empty `softmax-filter` list,
`LoadFiltering` fails, constructing no `Filter`, exactly when `std::stoi` throws
on a numeric argument that is read (`args[1]` when the size is at least 2,
`args[2]` when it is at least 3): the argument does not continue with a decimal
digit after its leading white space and one optional sign, or its leading
integer lies outside the range of `int`.  In every other case the `Filter` is
constructed on `args[0]`. -/
theorem LoadFiltering_fails_iff (g : God) (a0 : String) (rest : List String)
    (hargs : g.config_.softmaxFilter = a0 :: rest) :
    ((∃ e, LoadFiltering g = .error e) ↔ ∃ a ∈ rest.take 2, stoiThrows a = true) ∧
    ((¬ ∃ a ∈ rest.take 2, stoiThrows a = true) →
      ∃ g' f, LoadFiltering g = .ok g' ∧ g'.filter_ = some f ∧ f.alignmentFile = a0) := by
  unfold LoadFiltering
  rw [hargs]
  cases rest with
  | nil => simp
  | cons a1 tl =>
    cases tl with
    | nil =>
      rcases stoi_ok_or_error a1 with ⟨n, h⟩ | ⟨e, h⟩
      · have hno : ¬ stoiThrows a1 = true := by
          rw [← stoi_error_iff, h]; simp
        simp [h, hno]
      · have hyes : stoiThrows a1 = true := (stoi_error_iff a1).mp ⟨e, h⟩
        simp [h, hyes]
    | cons a2 tl' =>
      rcases stoi_ok_or_error a1 with ⟨n, h⟩ | ⟨e, h⟩
      · have hno : ¬ stoiThrows a1 = true := by
          rw [← stoi_error_iff, h]; simp
        rcases stoi_ok_or_error a2 with ⟨n2, h2⟩ | ⟨e2, h2⟩
        · have hno2 : ¬ stoiThrows a2 = true := by
            rw [← stoi_error_iff, h2]; simp
          simp [h, h2, hno, hno2]
        · have hyes2 : stoiThrows a2 = true := (stoi_error_iff a2).mp ⟨e2, h2⟩
          simp [h, h2, hyes2]
      · have hyes : stoiThrows a1 = true := (stoi_error_iff a1).mp ⟨e, h⟩
        simp [h, hyes]

/-- C8 on `["align.txt", "x"]` (no conversion), `["align.txt", "5",
"-99999999999"]` (outside `int`) and `["align.txt", "50abc"]` (converted). -/
theorem LoadFiltering_fails_iff_witness :
    (stoiThrows "x" = true ∧
      ∃ e, LoadFiltering (construct (configFilter ["align.txt", "x"])) = .error e) ∧
    (stoiThrows "-99999999999" = true ∧
      ∃ e, LoadFiltering (construct (configFilter ["align.txt", "5", "-99999999999"])) =
        .error e) ∧
    (stoiThrows "50abc" = false ∧
      ∃ g' f, LoadFiltering (construct (configFilter ["align.txt", "50abc"])) = .ok g' ∧
        g'.filter_ = some f ∧ f.alignmentFile = "align.txt") :=
  ⟨⟨by decide,
      (LoadFiltering_fails_iff (construct (configFilter ["align.txt", "x"]))
        "align.txt" ["x"] rfl).1.mpr (by decide)⟩,
    ⟨by decide,
      (LoadFiltering_fails_iff (construct (configFilter ["align.txt", "5", "-99999999999"]))
        "align.txt" ["5", "-99999999999"] rfl).1.mpr (by decide)⟩,
    ⟨by decide,
      (LoadFiltering_fails_iff (construct (configFilter ["align.txt", "50abc"]))
        "align.txt" ["50abc"] rfl).2 (by decide)⟩⟩

/-- C8 fails as stated: the argument "50abc" is converted from its leading
integer 50 and the negative "-1" is converted to the `size_t` value `2^64 - 1`;
in both cases the `Filter` is constructed. -/
theorem LoadFiltering_accepts_suffix_and_negative :
    (LoadFiltering (construct (configFilter ["align.txt", "50abc"]))).toOption.map
        (fun g => g.filter_) = some (some ⟨0, "align.txt", some 50, none⟩) ∧
    (LoadFiltering (construct (configFilter ["align.txt", "-1"]))).toOption.map
        (fun g => g.filter_) =
      some (some ⟨0, "align.txt", some 18446744073709551615, none⟩) ∧
    (LoadFiltering (construct (configFilter ["align.txt", "5", "-1"]))).toOption.map
        (fun g => g.filter_) =
      some (some ⟨0, "align.txt", some 5, some 18446744073709551615⟩) := by
  decide

/-- Below the largest `size_t` the guard of `Preprocess` is exact: when no
pipeline is configured for `i` (the index is not below the number of
pipelines, or pipeline `i` is empty) the input is returned unchanged. -/
theorem Preprocess_identity_below_max (g : God) (i : Nat) (input : List String)
    (hi : i + 1 < SIZE_MOD)
    (hnone : g.preprocessors_.length ≤ i ∨ g.preprocessors_.get? i = some []) :
    Preprocess g i input = some input := by
  unfold Preprocess sizeAdd
  rw [Nat.mod_eq_of_lt hi]
  rcases hnone with h | h
  · have : ¬ g.preprocessors_.length ≥ i + 1 := by omega
    rw [if_neg this]
  · split_ifs
    · rw [h]; rfl
    · rfl

/-- C10 at the largest `size_t`: `i + 1` wraps to 0, the guard
`preprocessors_.size() >= i + 1` holds and `preprocessors_[i]` is read out of
range, both without pipelines and with one configured pipeline. -/
theorem Preprocess_reads_out_of_range_at_max :
    SIZE_MOD - 1 = 18446744073709551615 ∧
    sizeAdd 18446744073709551615 1 = 0 ∧
    (LoadPrePostProcessing charBPE (construct (configBpe .absent))).preprocessors_.length = 0 ∧
    Preprocess (LoadPrePostProcessing charBPE (construct (configBpe .absent)))
      18446744073709551615 ["a"] = none ∧
    (LoadPrePostProcessing charBPE
      (construct (configBpe (.sequence ["codes.bpe"])))).preprocessors_.length = 1 ∧
    Preprocess (LoadPrePostProcessing charBPE (construct (configBpe (.sequence ["codes.bpe"]))))
      18446744073709551615 ["a"] = none := by
  decide

end God

end Amun
